import Mathlib

/-!
Verification of the declaration matcher and `FunctionDecl` model of
`proc-macro-tools` (`src/lib.rs`).

The Rust code applies the single pattern

  `^([\w\W]*?) *(pub +)?(async +)?fn +([\w\W]*?)(\([\w\W]*?) +?(->[\w\W]*?)?[ \n]*\x7b([\S\s]*)\x7d`

to the input (the Rust `regex` crate gives leftmost-first, Perl-style
match semantics: lazy quantifiers prefer fewer repetitions, greedy ones
prefer more, alternatives and optionals prefer their first/present arm,
with backtracking on failure of the continuation).  We embed this exact
pattern as a specialised backtracking matcher over `List Char`, one
function per position in the pattern, each trying the continuation in the
pattern's preference order.  All functions are structurally recursive and
executable.  `from_string` then mirrors the Rust constructor: `panic!`
(either on a failed match or on the `unwrap` while stripping the `->`
marker) is modelled as `none`.
-/

/-- The seven capture groups of the pattern, plus `post`, the residue of the
input after the closing brace consumed by the match (the pattern has no `$`
anchor, so trailing text is allowed).  `g2`, `g3`, `g6` are the optional
groups `(pub +)?`, `(async +)?`, `(->[\w\W]*?)?`; `none` models a
non-participating group (Rust `caps.get(i) == None`). -/
structure RawCaps where
  g1 : List Char
  g2 : Option (List Char)
  g3 : Option (List Char)
  g4 : List Char
  g5 : List Char
  g6 : Option (List Char)
  g7 : List Char
  post : List Char
deriving DecidableEq, Repr

/-- The `FunctionDecl` struct of the Rust source, field for field. -/
structure FunctionDecl where
  func_prologue : String
  pub_str : String
  async_str : String
  fn_name : String
  fn_decl : String
  ret_decl : String
  fn_body : String
deriving DecidableEq, Repr

/-- Rust `char::is_whitespace` (the Unicode `White_Space` property), used by
`str::trim`. -/
def rustIsWs (c : Char) : Bool :=
  let n := c.toNat
  (Nat.ble 0x09 n && Nat.ble n 0x0D) || n == 0x20 || n == 0x85 || n == 0xA0 ||
    n == 0x1680 || (Nat.ble 0x2000 n && Nat.ble n 0x200A) || n == 0x2028 ||
    n == 0x2029 || n == 0x202F || n == 0x205F || n == 0x3000

/-- Remove matching characters from the end of a list. -/
def trimEndWith (p : Char → Bool) (l : List Char) : List Char :=
  (l.reverse.dropWhile p).reverse

/-- Remove matching characters from both ends of a list: Rust
`str::trim_matches` for a single-char pattern, and `str::trim` for
`p := rustIsWs`. -/
def trimWith (p : Char → Bool) (l : List Char) : List Char :=
  trimEndWith p (l.dropWhile p)

/-- Rust `str::trim` on the character list. -/
def trimChars (l : List Char) : List Char := trimWith rustIsWs l

/-- Rust `str::trim_matches(' ')` on the character list. -/
def trimSpaces (l : List Char) : List Char := trimWith (fun c => c == ' ') l

/-- Match a literal character sequence at the front of the input, returning
the rest on success. -/
def stripPre (pat l : List Char) : Option (List Char) :=
  match pat, l with
  | [], rest => some rest
  | _ :: _, [] => none
  | p :: ps, c :: t => if c = p then stripPre ps t else none

/-- Pattern tail `([\S\s]*)\x7d`: the greedy star prefers the longest group 7,
so the closing brace consumed is the last one of the remaining input.
`acc` is the part of group 7 already consumed. -/
def matchBody (g1 : List Char) (g2 g3 : Option (List Char)) (g4 g5 : List Char)
    (g6 : Option (List Char)) (acc : List Char) : List Char → Option RawCaps
  | [] => none
  | c :: t =>
    match matchBody g1 g2 g3 g4 g5 g6 (acc ++ [c]) t with
    | some r => some r
    | none => if c = '\x7d' then some ⟨g1, g2, g3, g4, g5, g6, acc, t⟩ else none

/-- Pattern `\x7b([\S\s]*)\x7d`. -/
def openBrace (g1 : List Char) (g2 g3 : Option (List Char)) (g4 g5 : List Char)
    (g6 : Option (List Char)) (l : List Char) : Option RawCaps :=
  match l with
  | c :: t => if c = '\x7b' then matchBody g1 g2 g3 g4 g5 g6 [] t else none
  | [] => none

/-- Pattern `[ \n]*\x7b([\S\s]*)\x7d`: greedy whitespace star, giving back on
failure of the continuation (the giveback arm always fails here, since the
continuation `\x7b` cannot match a whitespace character, but it is kept for
fidelity to the quantifier's semantics). -/
def wsOpen (g1 : List Char) (g2 g3 : Option (List Char)) (g4 g5 : List Char)
    (g6 : Option (List Char)) : List Char → Option RawCaps
  | [] => openBrace g1 g2 g3 g4 g5 g6 []
  | c :: t =>
    if c = ' ' ∨ c = '\n' then
      match wsOpen g1 g2 g3 g4 g5 g6 t with
      | some r => some r
      | none => openBrace g1 g2 g3 g4 g5 g6 (c :: t)
    else openBrace g1 g2 g3 g4 g5 g6 (c :: t)

/-- Interior of group 6 after its `->` marker: `[\w\W]*?` is lazy, so the
continuation is tried before consuming a character.  The capture recorded on
exit is `'-' :: '>' :: acc`. -/
def g6go (g1 : List Char) (g2 g3 : Option (List Char)) (g4 g5 : List Char)
    (acc : List Char) : List Char → Option RawCaps
  | [] => wsOpen g1 g2 g3 g4 g5 (some ('-' :: '>' :: acc)) []
  | c :: t =>
    match wsOpen g1 g2 g3 g4 g5 (some ('-' :: '>' :: acc)) (c :: t) with
    | some r => some r
    | none => g6go g1 g2 g3 g4 g5 (acc ++ [c]) t

/-- Pattern `(->[\w\W]*?)?[ \n]*\x7b...`: the greedy optional prefers the arm
with the group present. -/
def group6 (g1 : List Char) (g2 g3 : Option (List Char)) (g4 g5 : List Char)
    (l : List Char) : Option RawCaps :=
  match stripPre ['-', '>'] l with
  | some t =>
    match g6go g1 g2 g3 g4 g5 [] t with
    | some r => some r
    | none => wsOpen g1 g2 g3 g4 g5 none l
  | none => wsOpen g1 g2 g3 g4 g5 none l

/-- Lazy extension of the ` +?` that follows group 5: try the continuation
first, then consume one more space. -/
def spLazy (g1 : List Char) (g2 g3 : Option (List Char)) (g4 g5 : List Char) :
    List Char → Option RawCaps
  | [] => group6 g1 g2 g3 g4 g5 []
  | c :: t =>
    match group6 g1 g2 g3 g4 g5 (c :: t) with
    | some r => some r
    | none => if c = ' ' then spLazy g1 g2 g3 g4 g5 t else none

/-- Pattern ` +?` after group 5: at least one space, lazily. -/
def spacePlus (g1 : List Char) (g2 g3 : Option (List Char)) (g4 g5 : List Char)
    (l : List Char) : Option RawCaps :=
  match l with
  | c :: t => if c = ' ' then spLazy g1 g2 g3 g4 g5 t else none
  | [] => none

/-- Interior of group 5 after its opening parenthesis (`[\w\W]*?`, lazy).
The capture recorded is `'(' :: acc`. -/
def g5go (g1 : List Char) (g2 g3 : Option (List Char)) (g4 : List Char)
    (acc : List Char) : List Char → Option RawCaps
  | [] => spacePlus g1 g2 g3 g4 ('(' :: acc) []
  | c :: t =>
    match spacePlus g1 g2 g3 g4 ('(' :: acc) (c :: t) with
    | some r => some r
    | none => g5go g1 g2 g3 g4 (acc ++ [c]) t

/-- Pattern `(\([\w\W]*?) +?...`: group 5 must start with `(`. -/
def group5 (g1 : List Char) (g2 g3 : Option (List Char)) (g4 : List Char)
    (l : List Char) : Option RawCaps :=
  match l with
  | c :: t => if c = '(' then g5go g1 g2 g3 g4 [] t else none
  | [] => none

/-- Group 4 `([\w\W]*?)`, lazy: try group 5 here before consuming. -/
def g4go (g1 : List Char) (g2 g3 : Option (List Char)) (acc : List Char) :
    List Char → Option RawCaps
  | [] => group5 g1 g2 g3 acc []
  | c :: t =>
    match group5 g1 g2 g3 acc (c :: t) with
    | some r => some r
    | none => g4go g1 g2 g3 (acc ++ [c]) t

/-- The greedy spaces of `fn +` (first space already consumed by `kwFn`):
prefer consuming, give back to the continuation on failure. -/
def fnSpaces (g1 : List Char) (g2 g3 : Option (List Char)) :
    List Char → Option RawCaps
  | [] => g4go g1 g2 g3 [] []
  | c :: t =>
    if c = ' ' then
      match fnSpaces g1 g2 g3 t with
      | some r => some r
      | none => g4go g1 g2 g3 [] (c :: t)
    else g4go g1 g2 g3 [] (c :: t)

/-- Pattern `fn +`. -/
def kwFn (g1 : List Char) (g2 g3 : Option (List Char)) (l : List Char) :
    Option RawCaps :=
  match stripPre ['f', 'n', ' '] l with
  | some t => fnSpaces g1 g2 g3 t
  | none => none

/-- The greedy spaces of `(async +)?` (one space already consumed, held in
`sp`); the capture on exit is `"async" ++ sp`. -/
def asyncGo (g1 : List Char) (g2 : Option (List Char)) (sp : List Char) :
    List Char → Option RawCaps
  | [] => kwFn g1 g2 (some (['a', 's', 'y', 'n', 'c'] ++ sp)) []
  | c :: t =>
    if c = ' ' then
      match asyncGo g1 g2 (sp ++ [' ']) t with
      | some r => some r
      | none => kwFn g1 g2 (some (['a', 's', 'y', 'n', 'c'] ++ sp)) (c :: t)
    else kwFn g1 g2 (some (['a', 's', 'y', 'n', 'c'] ++ sp)) (c :: t)

/-- Pattern `(async +)?fn +`: greedy optional. -/
def group3 (g1 : List Char) (g2 : Option (List Char)) (l : List Char) :
    Option RawCaps :=
  match stripPre ['a', 's', 'y', 'n', 'c', ' '] l with
  | some t =>
    match asyncGo g1 g2 [' '] t with
    | some r => some r
    | none => kwFn g1 g2 none l
  | none => kwFn g1 g2 none l

/-- The greedy spaces of `(pub +)?`; the capture on exit is `"pub" ++ sp`. -/
def pubGo (g1 : List Char) (sp : List Char) : List Char → Option RawCaps
  | [] => group3 g1 (some (['p', 'u', 'b'] ++ sp)) []
  | c :: t =>
    if c = ' ' then
      match pubGo g1 (sp ++ [' ']) t with
      | some r => some r
      | none => group3 g1 (some (['p', 'u', 'b'] ++ sp)) (c :: t)
    else group3 g1 (some (['p', 'u', 'b'] ++ sp)) (c :: t)

/-- Pattern `(pub +)?(async +)?...`: greedy optional. -/
def group2 (g1 : List Char) (l : List Char) : Option RawCaps :=
  match stripPre ['p', 'u', 'b', ' '] l with
  | some t =>
    match pubGo g1 [' '] t with
    | some r => some r
    | none => group3 g1 none l
  | none => group3 g1 none l

/-- Pattern ` *` after group 1: greedy, with giveback. -/
def postG1 (g1 : List Char) : List Char → Option RawCaps
  | [] => group2 g1 []
  | c :: t =>
    if c = ' ' then
      match postG1 g1 t with
      | some r => some r
      | none => group2 g1 (c :: t)
    else group2 g1 (c :: t)

/-- Group 1 `^([\w\W]*?)`, lazy, anchored at the start of the input. -/
def g1go (acc : List Char) : List Char → Option RawCaps
  | [] => postG1 acc []
  | c :: t =>
    match postG1 acc (c :: t) with
    | some r => some r
    | none => g1go (acc ++ [c]) t

/-- `FN_PATTERN.captures(input)`: the full anchored match. -/
def fnCaptures (l : List Char) : Option RawCaps := g1go [] l

/-- The `ret_decl` computation of `from_string`:
`caps.get(6).map(|m| {... nth(2).unwrap() ...}).unwrap_or("")`.  The `drain`
removes the first two characters (the `->` marker); the `unwrap` of
`char_indices().nth(2)` panics — modelled as `none` — when the captured
clause has fewer than three characters. -/
def retDecl (g6 : Option (List Char)) : Option (List Char) :=
  match g6 with
  | none => some []
  | some g6 => if 3 ≤ g6.length then some (trimChars (g6.drop 2)) else none

/-- The record built by `from_string` from the captures and the processed
return-type clause (Rust builds exactly one `FunctionDecl` value). -/
def mkDecl (caps : RawCaps) (ret : List Char) : FunctionDecl :=
  { func_prologue := String.mk (trimSpaces caps.g1)
    pub_str := String.mk (trimChars (caps.g2.getD []))
    async_str := String.mk (trimChars (caps.g3.getD []))
    fn_name := String.mk (trimChars caps.g4)
    fn_decl := String.mk (trimChars caps.g5)
    ret_decl := String.mk ret
    fn_body := String.mk (trimChars caps.g7) }

/-- `FunctionDecl::from_string`.  Both `panic!` sites (no match — the
`caps.len() != 8` guard can never fire, since the pattern has exactly seven
groups plus the whole match — and the failing `unwrap` inside the
return-clause processing) are modelled as `none`. -/
def from_string (in_str : String) : Option FunctionDecl :=
  match fnCaptures in_str.data with
  | none => none
  | some caps =>
    match retDecl caps.g6 with
    | none => none
    | some ret => some (mkDecl caps ret)

/-- `add_space_or_empty` (emptiness tested exactly as Rust's `is_empty`). -/
def add_space_or_empty (input : String) : String :=
  if input = "" then "" else input ++ " "

/-- `FunctionDecl::func_prelude`. -/
def func_prelude (d : FunctionDecl) : String :=
  d.func_prologue ++ add_space_or_empty d.pub_str ++ add_space_or_empty d.async_str ++
    "fn " ++ d.fn_name ++ d.fn_decl ++
    (if d.ret_decl = "" then "" else " -> " ++ d.ret_decl) ++ " \x7b"

/-- `FunctionDecl::func_end`. -/
def func_end (_d : FunctionDecl) : String := "\x7d"

/-- `FunctionDecl::into_func_body`. -/
def into_func_body (d : FunctionDecl) (body_add : String) : String :=
  func_prelude d ++ "\n" ++ body_add ++ "\n" ++ func_end d

/-- The text strictly between the first opening brace and the last closing
brace of the input — the region the spec's body-extraction sentence names. -/
def betweenBraces (l : List Char) : List Char :=
  ((((l.dropWhile (fun c => !(c == '\x7b'))).drop 1).reverse.dropWhile
    (fun c => !(c == '\x7d'))).drop 1).reverse

/-- A successful match decomposes the input around an opening brace chosen by
the matcher, group 7, and the closing brace consumed by the match; the greedy
`([\S\s]*)` guarantees no closing brace occurs after it. -/
def braceSplit (r : RawCaps) (l : List Char) : Prop :=
  ∃ pre, l = pre ++ '\x7b' :: (r.g7 ++ '\x7d' :: r.post) ∧ '\x7d' ∉ r.post

/-- Success invariant of the matcher from group 5 onward: the parameter
capture starts with its opening parenthesis, and the input splits around the
braces of the match. -/
def capsOk (r : RawCaps) (l : List Char) : Prop :=
  (∃ i, r.g5 = '(' :: i) ∧ braceSplit r l

/-- `n` spaces. -/
def spacesN (n : Nat) : List Char := List.replicate n ' '

/-- `n` newlines. -/
def newlsN (n : Nat) : List Char := List.replicate n '\n'

/-- The declaration `fn f() \x7b\x7d` with `a + 1` spaces between the keyword
and the name, `b + 1` spaces after the parameter list, and `c` newlines before
the opening brace (right-nested so that list appends reduce). -/
def elasticInput (a b c : Nat) : List Char :=
  'f' :: 'n' :: (spacesN (a + 1) ++ ('f' :: '(' :: ')' ::
    (spacesN (b + 1) ++ (newlsN c ++ ['\x7b', '\x7d']))))

/-! ### Generic list and trimming lemmas -/

theorem stripPre_sound : ∀ (pat l t : List Char), stripPre pat l = some t → l = pat ++ t := by
  intro pat
  induction pat with
  | nil =>
    intro l t h
    simp only [stripPre, Option.some.injEq] at h
    simp [h]
  | cons p ps ih =>
    intro l t h
    cases l with
    | nil => simp [stripPre] at h
    | cons c l' =>
      simp only [stripPre] at h
      by_cases hc : c = p
      · rw [if_pos hc] at h
        rw [List.cons_append, hc, ih l' t h]
      · rw [if_neg hc] at h
        exact absurd h (by simp)

theorem head_dropWhile (p : Char → Bool) :
    ∀ (l : List Char) (a : Char), (List.dropWhile p l).head? = some a → p a = false := by
  intro l
  induction l with
  | nil => intro a h; simp [List.dropWhile] at h
  | cons c t ih =>
    intro a h
    rw [List.dropWhile_cons] at h
    by_cases hc : p c
    · rw [if_pos hc] at h
      exact ih a h
    · rw [if_neg hc] at h
      simp only [List.head?_cons, Option.some.injEq] at h
      rw [← h]
      exact Bool.eq_false_iff.mpr hc

theorem dropWhile_append_last (p : Char → Bool) (a : Char) (h : p a = false) :
    ∀ (xs : List Char), List.dropWhile p (xs ++ [a]) = List.dropWhile p xs ++ [a] := by
  intro xs
  induction xs with
  | nil => simp [List.dropWhile_cons, h]
  | cons c t ih =>
    rw [List.cons_append, List.dropWhile_cons, List.dropWhile_cons]
    by_cases hc : p c
    · rw [if_pos hc, if_pos hc, ih]
    · rw [if_neg hc, if_neg hc, List.cons_append]

theorem trimWith_cons (p : Char → Bool) (a : Char) (l : List Char) (h : p a = false) :
    trimWith p (a :: l) = a :: trimEndWith p l := by
  unfold trimWith trimEndWith
  rw [List.dropWhile_cons]
  simp only [h, Bool.false_eq_true, if_false, List.reverse_cons]
  rw [dropWhile_append_last p a h, List.reverse_append]
  simp

theorem trimWith_reverse_head (p : Char → Bool) (l : List Char) (a : Char)
    (h : (trimWith p l).reverse.head? = some a) : p a = false := by
  unfold trimWith trimEndWith at h
  rw [List.reverse_reverse] at h
  exact head_dropWhile p _ a h

theorem trimWith_split (p : Char → Bool) (l : List Char) :
    List.dropWhile p l =
      trimWith p l ++ ((List.dropWhile p l).reverse.takeWhile p).reverse := by
  unfold trimWith trimEndWith
  conv_lhs => rw [← List.reverse_reverse (List.dropWhile p l),
    ← List.takeWhile_append_dropWhile (p := p) (l := (List.dropWhile p l).reverse)]
  rw [List.reverse_append]

theorem trimWith_head (p : Char → Bool) (l : List Char) (a : Char)
    (h : (trimWith p l).head? = some a) : p a = false := by
  cases hW : trimWith p l with
  | nil => rw [hW] at h; simp at h
  | cons b t =>
    rw [hW] at h
    simp only [List.head?_cons, Option.some.injEq] at h
    have hX : (List.dropWhile p l).head? = some b := by
      rw [trimWith_split p l, hW]
      rfl
    rw [← h]
    exact head_dropWhile p l b hX

/-! ### Soundness of the matcher stages: a successful match yields a
parameter capture starting with `(` and a brace decomposition of the input -/

theorem braceSplit_cons (c : Char) (r : RawCaps) (t : List Char) :
    braceSplit r t → braceSplit r (c :: t) := by
  rintro ⟨pre, h1, h2⟩
  exact ⟨c :: pre, by rw [h1, List.cons_append], h2⟩

theorem braceSplit_pre (xs : List Char) {r : RawCaps} {t : List Char} :
    braceSplit r t → braceSplit r (xs ++ t) := by
  intro h
  induction xs with
  | nil => simpa using h
  | cons c xs' ih => rw [List.cons_append]; exact braceSplit_cons c r _ ih

theorem capsOk_cons (c : Char) (r : RawCaps) (t : List Char) :
    capsOk r t → capsOk r (c :: t) := by
  rintro ⟨h5, hb⟩
  exact ⟨h5, braceSplit_cons c r t hb⟩

theorem capsOk_pre (xs : List Char) {r : RawCaps} {t : List Char} :
    capsOk r t → capsOk r (xs ++ t) := by
  rintro ⟨h5, hb⟩
  exact ⟨h5, braceSplit_pre xs hb⟩

theorem matchBody_none (g1 : List Char) (g2 g3 : Option (List Char)) (g4 g5 : List Char)
    (g6 : Option (List Char)) :
    ∀ (l acc : List Char), matchBody g1 g2 g3 g4 g5 g6 acc l = none → '\x7d' ∉ l := by
  intro l
  induction l with
  | nil => intro acc _; simp
  | cons c t ih =>
    intro acc h
    unfold matchBody at h
    cases hm : matchBody g1 g2 g3 g4 g5 g6 (acc ++ [c]) t with
    | some r => rw [hm] at h; simp at h
    | none =>
      rw [hm] at h
      by_cases hc : c = '\x7d'
      · rw [if_pos hc] at h; simp at h
      · intro hmem
        rcases List.mem_cons.mp hmem with h1 | h2
        · exact hc h1.symm
        · exact (ih (acc ++ [c]) hm) h2

theorem matchBody_sound (g1 : List Char) (g2 g3 : Option (List Char)) (g4 g5 : List Char)
    (g6 : Option (List Char)) :
    ∀ (l acc : List Char) (r : RawCaps), matchBody g1 g2 g3 g4 g5 g6 acc l = some r →
      r.g5 = g5 ∧ ∃ m, r.g7 = acc ++ m ∧ l = m ++ '\x7d' :: r.post ∧ '\x7d' ∉ r.post := by
  intro l
  induction l with
  | nil => intro acc r h; simp [matchBody] at h
  | cons c t ih =>
    intro acc r h
    unfold matchBody at h
    cases hm : matchBody g1 g2 g3 g4 g5 g6 (acc ++ [c]) t with
    | some r' =>
      rw [hm] at h
      have hr : r' = r := by simpa using h
      subst hr
      obtain ⟨hg5, m', h7, hsplit, hpost⟩ := ih (acc ++ [c]) r' hm
      refine ⟨hg5, c :: m', ?_, ?_, hpost⟩
      · rw [h7, List.append_assoc]; rfl
      · rw [hsplit]; rfl
    | none =>
      rw [hm] at h
      by_cases hc : c = '\x7d'
      · rw [if_pos hc] at h
        have hr : (⟨g1, g2, g3, g4, g5, g6, acc, t⟩ : RawCaps) = r := by simpa using h
        subst hr
        refine ⟨rfl, [], by simp, ?_, ?_⟩
        · rw [hc]; rfl
        · exact matchBody_none g1 g2 g3 g4 g5 g6 t (acc ++ [c]) hm
      · rw [if_neg hc] at h
        exact absurd h (by simp)

theorem openBrace_sound (g1 : List Char) (g2 g3 : Option (List Char)) (g4 g5 : List Char)
    (g6 : Option (List Char)) (l : List Char) (r : RawCaps)
    (h : openBrace g1 g2 g3 g4 g5 g6 l = some r) :
    r.g5 = g5 ∧ braceSplit r l := by
  cases l with
  | nil => simp [openBrace] at h
  | cons c t =>
    have h : (if c = '\x7b' then matchBody g1 g2 g3 g4 g5 g6 [] t else none) = some r := h
    by_cases hc : c = '\x7b'
    · rw [if_pos hc] at h
      obtain ⟨hg5, m, h7, hsplit, hpost⟩ := matchBody_sound g1 g2 g3 g4 g5 g6 t [] r h
      rw [List.nil_append] at h7
      refine ⟨hg5, [], ?_, hpost⟩
      rw [List.nil_append, hc, hsplit, h7]
    · rw [if_neg hc] at h
      exact absurd h (by simp)

theorem wsOpen_sound (g1 : List Char) (g2 g3 : Option (List Char)) (g4 g5 : List Char)
    (g6 : Option (List Char)) :
    ∀ (l : List Char) (r : RawCaps), wsOpen g1 g2 g3 g4 g5 g6 l = some r →
      r.g5 = g5 ∧ braceSplit r l := by
  intro l
  induction l with
  | nil =>
    intro r h
    exact openBrace_sound g1 g2 g3 g4 g5 g6 [] r h
  | cons c t ih =>
    intro r h
    unfold wsOpen at h
    by_cases hc : c = ' ' ∨ c = '\n'
    · rw [if_pos hc] at h
      cases hw : wsOpen g1 g2 g3 g4 g5 g6 t with
      | some r' =>
        rw [hw] at h
        have hr : r' = r := by simpa using h
        subst hr
        obtain ⟨h5, hb⟩ := ih r' hw
        exact ⟨h5, braceSplit_cons c r' t hb⟩
      | none =>
        rw [hw] at h
        exact openBrace_sound g1 g2 g3 g4 g5 g6 (c :: t) r h
    · rw [if_neg hc] at h
      exact openBrace_sound g1 g2 g3 g4 g5 g6 (c :: t) r h

theorem g6go_sound (g1 : List Char) (g2 g3 : Option (List Char)) (g4 g5 : List Char) :
    ∀ (l acc : List Char) (r : RawCaps), g6go g1 g2 g3 g4 g5 acc l = some r →
      r.g5 = g5 ∧ braceSplit r l := by
  intro l
  induction l with
  | nil =>
    intro acc r h
    exact wsOpen_sound g1 g2 g3 g4 g5 _ [] r h
  | cons c t ih =>
    intro acc r h
    unfold g6go at h
    cases hw : wsOpen g1 g2 g3 g4 g5 (some ('-' :: '>' :: acc)) (c :: t) with
    | some r' =>
      rw [hw] at h
      have hr : r' = r := by simpa using h
      subst hr
      exact wsOpen_sound g1 g2 g3 g4 g5 _ (c :: t) r' hw
    | none =>
      rw [hw] at h
      obtain ⟨h5, hb⟩ := ih (acc ++ [c]) r h
      exact ⟨h5, braceSplit_cons c r t hb⟩

theorem group6_sound (g1 : List Char) (g2 g3 : Option (List Char)) (g4 g5 : List Char)
    (l : List Char) (r : RawCaps) (h : group6 g1 g2 g3 g4 g5 l = some r) :
    r.g5 = g5 ∧ braceSplit r l := by
  unfold group6 at h
  cases hs : stripPre ['-', '>'] l with
  | some t =>
    rw [hs] at h
    have h : (match g6go g1 g2 g3 g4 g5 [] t with
      | some r => some r
      | none => wsOpen g1 g2 g3 g4 g5 none l) = some r := h
    cases hg : g6go g1 g2 g3 g4 g5 [] t with
    | some r' =>
      rw [hg] at h
      have hr : r' = r := by simpa using h
      subst hr
      obtain ⟨h5, hb⟩ := g6go_sound g1 g2 g3 g4 g5 t [] r' hg
      refine ⟨h5, ?_⟩
      rw [stripPre_sound _ _ _ hs]
      exact braceSplit_pre _ hb
    | none =>
      rw [hg] at h
      exact wsOpen_sound g1 g2 g3 g4 g5 none l r h
  | none =>
    rw [hs] at h
    exact wsOpen_sound g1 g2 g3 g4 g5 none l r h

theorem spLazy_sound (g1 : List Char) (g2 g3 : Option (List Char)) (g4 g5 : List Char) :
    ∀ (l : List Char) (r : RawCaps), spLazy g1 g2 g3 g4 g5 l = some r →
      r.g5 = g5 ∧ braceSplit r l := by
  intro l
  induction l with
  | nil =>
    intro r h
    exact group6_sound g1 g2 g3 g4 g5 [] r h
  | cons c t ih =>
    intro r h
    unfold spLazy at h
    cases hg : group6 g1 g2 g3 g4 g5 (c :: t) with
    | some r' =>
      rw [hg] at h
      have hr : r' = r := by simpa using h
      subst hr
      exact group6_sound g1 g2 g3 g4 g5 (c :: t) r' hg
    | none =>
      rw [hg] at h
      by_cases hc : c = ' '
      · rw [if_pos hc] at h
        obtain ⟨h5, hb⟩ := ih r h
        exact ⟨h5, braceSplit_cons c r t hb⟩
      · rw [if_neg hc] at h
        exact absurd h (by simp)

theorem spacePlus_sound (g1 : List Char) (g2 g3 : Option (List Char)) (g4 g5 : List Char)
    (l : List Char) (r : RawCaps) (h : spacePlus g1 g2 g3 g4 g5 l = some r) :
    r.g5 = g5 ∧ braceSplit r l := by
  cases l with
  | nil => simp [spacePlus] at h
  | cons c t =>
    have h : (if c = ' ' then spLazy g1 g2 g3 g4 g5 t else none) = some r := h
    by_cases hc : c = ' '
    · rw [if_pos hc] at h
      obtain ⟨h5, hb⟩ := spLazy_sound g1 g2 g3 g4 g5 t r h
      exact ⟨h5, braceSplit_cons c r t hb⟩
    · rw [if_neg hc] at h
      exact absurd h (by simp)

theorem g5go_sound (g1 : List Char) (g2 g3 : Option (List Char)) (g4 : List Char) :
    ∀ (l acc : List Char) (r : RawCaps), g5go g1 g2 g3 g4 acc l = some r →
      capsOk r l := by
  intro l
  induction l with
  | nil =>
    intro acc r h
    obtain ⟨h5, hb⟩ := spacePlus_sound g1 g2 g3 g4 ('(' :: acc) [] r h
    exact ⟨⟨acc, h5⟩, hb⟩
  | cons c t ih =>
    intro acc r h
    unfold g5go at h
    cases hs : spacePlus g1 g2 g3 g4 ('(' :: acc) (c :: t) with
    | some r' =>
      rw [hs] at h
      have hr : r' = r := by simpa using h
      subst hr
      obtain ⟨h5, hb⟩ := spacePlus_sound g1 g2 g3 g4 ('(' :: acc) (c :: t) r' hs
      exact ⟨⟨acc, h5⟩, hb⟩
    | none =>
      rw [hs] at h
      exact capsOk_cons c r t (ih (acc ++ [c]) r h)

theorem group5_sound (g1 : List Char) (g2 g3 : Option (List Char)) (g4 : List Char)
    (l : List Char) (r : RawCaps) (h : group5 g1 g2 g3 g4 l = some r) :
    capsOk r l := by
  cases l with
  | nil => simp [group5] at h
  | cons c t =>
    have h : (if c = '(' then g5go g1 g2 g3 g4 [] t else none) = some r := h
    by_cases hc : c = '('
    · rw [if_pos hc] at h
      exact capsOk_cons c r t (g5go_sound g1 g2 g3 g4 t [] r h)
    · rw [if_neg hc] at h
      exact absurd h (by simp)

theorem g4go_sound (g1 : List Char) (g2 g3 : Option (List Char)) :
    ∀ (l acc : List Char) (r : RawCaps), g4go g1 g2 g3 acc l = some r → capsOk r l := by
  intro l
  induction l with
  | nil =>
    intro acc r h
    exact group5_sound g1 g2 g3 acc [] r h
  | cons c t ih =>
    intro acc r h
    unfold g4go at h
    cases hs : group5 g1 g2 g3 acc (c :: t) with
    | some r' =>
      rw [hs] at h
      have hr : r' = r := by simpa using h
      subst hr
      exact group5_sound g1 g2 g3 acc (c :: t) r' hs
    | none =>
      rw [hs] at h
      exact capsOk_cons c r t (ih (acc ++ [c]) r h)

theorem fnSpaces_sound (g1 : List Char) (g2 g3 : Option (List Char)) :
    ∀ (l : List Char) (r : RawCaps), fnSpaces g1 g2 g3 l = some r → capsOk r l := by
  intro l
  induction l with
  | nil =>
    intro r h
    exact g4go_sound g1 g2 g3 [] [] r h
  | cons c t ih =>
    intro r h
    unfold fnSpaces at h
    by_cases hc : c = ' '
    · rw [if_pos hc] at h
      cases hs : fnSpaces g1 g2 g3 t with
      | some r' =>
        rw [hs] at h
        have hr : r' = r := by simpa using h
        subst hr
        exact capsOk_cons c r' t (ih r' hs)
      | none =>
        rw [hs] at h
        exact g4go_sound g1 g2 g3 (c :: t) [] r h
    · rw [if_neg hc] at h
      exact g4go_sound g1 g2 g3 (c :: t) [] r h

theorem kwFn_sound (g1 : List Char) (g2 g3 : Option (List Char))
    (l : List Char) (r : RawCaps) (h : kwFn g1 g2 g3 l = some r) : capsOk r l := by
  unfold kwFn at h
  cases hs : stripPre ['f', 'n', ' '] l with
  | some t =>
    rw [hs] at h
    rw [stripPre_sound _ _ _ hs]
    exact capsOk_pre _ (fnSpaces_sound g1 g2 g3 t r h)
  | none =>
    rw [hs] at h
    exact absurd h (by simp)

theorem asyncGo_sound (g1 : List Char) (g2 : Option (List Char)) :
    ∀ (l sp : List Char) (r : RawCaps), asyncGo g1 g2 sp l = some r → capsOk r l := by
  intro l
  induction l with
  | nil =>
    intro sp r h
    exact kwFn_sound g1 g2 _ [] r h
  | cons c t ih =>
    intro sp r h
    unfold asyncGo at h
    by_cases hc : c = ' '
    · rw [if_pos hc] at h
      cases hs : asyncGo g1 g2 (sp ++ [' ']) t with
      | some r' =>
        rw [hs] at h
        have hr : r' = r := by simpa using h
        subst hr
        exact capsOk_cons c r' t (ih (sp ++ [' ']) r' hs)
      | none =>
        rw [hs] at h
        exact kwFn_sound g1 g2 _ (c :: t) r h
    · rw [if_neg hc] at h
      exact kwFn_sound g1 g2 _ (c :: t) r h

theorem group3_sound (g1 : List Char) (g2 : Option (List Char))
    (l : List Char) (r : RawCaps) (h : group3 g1 g2 l = some r) : capsOk r l := by
  unfold group3 at h
  cases hs : stripPre ['a', 's', 'y', 'n', 'c', ' '] l with
  | some t =>
    rw [hs] at h
    have h : (match asyncGo g1 g2 [' '] t with
      | some r => some r
      | none => kwFn g1 g2 none l) = some r := h
    cases ha : asyncGo g1 g2 [' '] t with
    | some r' =>
      rw [ha] at h
      have hr : r' = r := by simpa using h
      subst hr
      rw [stripPre_sound _ _ _ hs]
      exact capsOk_pre _ (asyncGo_sound g1 g2 t [' '] r' ha)
    | none =>
      rw [ha] at h
      exact kwFn_sound g1 g2 none l r h
  | none =>
    rw [hs] at h
    exact kwFn_sound g1 g2 none l r h

theorem pubGo_sound (g1 : List Char) :
    ∀ (l sp : List Char) (r : RawCaps), pubGo g1 sp l = some r → capsOk r l := by
  intro l
  induction l with
  | nil =>
    intro sp r h
    exact group3_sound g1 _ [] r h
  | cons c t ih =>
    intro sp r h
    unfold pubGo at h
    by_cases hc : c = ' '
    · rw [if_pos hc] at h
      cases hs : pubGo g1 (sp ++ [' ']) t with
      | some r' =>
        rw [hs] at h
        have hr : r' = r := by simpa using h
        subst hr
        exact capsOk_cons c r' t (ih (sp ++ [' ']) r' hs)
      | none =>
        rw [hs] at h
        exact group3_sound g1 _ (c :: t) r h
    · rw [if_neg hc] at h
      exact group3_sound g1 _ (c :: t) r h

theorem group2_sound (g1 : List Char)
    (l : List Char) (r : RawCaps) (h : group2 g1 l = some r) : capsOk r l := by
  unfold group2 at h
  cases hs : stripPre ['p', 'u', 'b', ' '] l with
  | some t =>
    rw [hs] at h
    have h : (match pubGo g1 [' '] t with
      | some r => some r
      | none => group3 g1 none l) = some r := h
    cases hp : pubGo g1 [' '] t with
    | some r' =>
      rw [hp] at h
      have hr : r' = r := by simpa using h
      subst hr
      rw [stripPre_sound _ _ _ hs]
      exact capsOk_pre _ (pubGo_sound g1 t [' '] r' hp)
    | none =>
      rw [hp] at h
      exact group3_sound g1 none l r h
  | none =>
    rw [hs] at h
    exact group3_sound g1 none l r h

theorem postG1_sound (g1 : List Char) :
    ∀ (l : List Char) (r : RawCaps), postG1 g1 l = some r → capsOk r l := by
  intro l
  induction l with
  | nil =>
    intro r h
    exact group2_sound g1 [] r h
  | cons c t ih =>
    intro r h
    unfold postG1 at h
    by_cases hc : c = ' '
    · rw [if_pos hc] at h
      cases hs : postG1 g1 t with
      | some r' =>
        rw [hs] at h
        have hr : r' = r := by simpa using h
        subst hr
        exact capsOk_cons c r' t (ih r' hs)
      | none =>
        rw [hs] at h
        exact group2_sound g1 (c :: t) r h
    · rw [if_neg hc] at h
      exact group2_sound g1 (c :: t) r h

theorem g1go_sound :
    ∀ (l acc : List Char) (r : RawCaps), g1go acc l = some r → capsOk r l := by
  intro l
  induction l with
  | nil =>
    intro acc r h
    exact postG1_sound acc [] r h
  | cons c t ih =>
    intro acc r h
    unfold g1go at h
    cases hs : postG1 acc (c :: t) with
    | some r' =>
      rw [hs] at h
      have hr : r' = r := by simpa using h
      subst hr
      exact postG1_sound acc (c :: t) r' hs
    | none =>
      rw [hs] at h
      exact capsOk_cons c r t (ih (acc ++ [c]) r h)

theorem fnCaptures_sound (l : List Char) (r : RawCaps) (h : fnCaptures l = some r) :
    capsOk r l :=
  g1go_sound l [] r h

/-! ### Constructive evaluation of the matcher on the whitespace-elastic
family `fn␣^(a+1) f()␣^(b+1) \n^c \x7b\x7d` -/

theorem wsOpen_sp (g1 : List Char) (g2 g3 : Option (List Char)) (g4 g5 : List Char)
    (g6 : Option (List Char)) (t : List Char) (r : RawCaps)
    (h : wsOpen g1 g2 g3 g4 g5 g6 t = some r) :
    wsOpen g1 g2 g3 g4 g5 g6 (' ' :: t) = some r := by
  have he : wsOpen g1 g2 g3 g4 g5 g6 (' ' :: t) =
      (match wsOpen g1 g2 g3 g4 g5 g6 t with
        | some r => some r
        | none => openBrace g1 g2 g3 g4 g5 g6 (' ' :: t)) := rfl
  rw [he, h]

theorem wsOpen_nl (g1 : List Char) (g2 g3 : Option (List Char)) (g4 g5 : List Char)
    (g6 : Option (List Char)) (t : List Char) (r : RawCaps)
    (h : wsOpen g1 g2 g3 g4 g5 g6 t = some r) :
    wsOpen g1 g2 g3 g4 g5 g6 ('\n' :: t) = some r := by
  have he : wsOpen g1 g2 g3 g4 g5 g6 ('\n' :: t) =
      (match wsOpen g1 g2 g3 g4 g5 g6 t with
        | some r => some r
        | none => openBrace g1 g2 g3 g4 g5 g6 ('\n' :: t)) := rfl
  rw [he, h]

theorem wsOpen_prepend (g1 : List Char) (g2 g3 : Option (List Char)) (g4 g5 : List Char)
    (g6 : Option (List Char)) (b c : Nat) (t : List Char) (r : RawCaps)
    (h : wsOpen g1 g2 g3 g4 g5 g6 t = some r) :
    wsOpen g1 g2 g3 g4 g5 g6 (spacesN b ++ (newlsN c ++ t)) = some r := by
  induction b with
  | zero =>
    rw [show spacesN 0 = [] from rfl, List.nil_append]
    induction c with
    | zero => rw [show newlsN 0 = [] from rfl, List.nil_append]; exact h
    | succ c' ihc =>
      rw [show newlsN (c' + 1) = '\n' :: newlsN c' from rfl, List.cons_append]
      exact wsOpen_nl g1 g2 g3 g4 g5 g6 _ r ihc
  | succ b' ihb =>
    rw [show spacesN (b' + 1) = ' ' :: spacesN b' from rfl, List.cons_append]
    exact wsOpen_sp g1 g2 g3 g4 g5 g6 _ r ihb

theorem group6_head_not_dash (g1 : List Char) (g2 g3 : Option (List Char))
    (g4 g5 : List Char) {l : List Char} {r : RawCaps}
    (hl : l.head? ≠ some '-') (h : wsOpen g1 g2 g3 g4 g5 none l = some r) :
    group6 g1 g2 g3 g4 g5 l = some r := by
  cases l with
  | nil => exact h
  | cons c t =>
    have hc : ¬ c = '-' := by intro hh; exact hl (by simp [hh])
    have hs : stripPre ['-', '>'] (c :: t) = none := by simp [stripPre, hc]
    unfold group6
    rw [hs]
    exact h

theorem elastic_tail_head (b c : Nat) :
    (spacesN b ++ (newlsN c ++ (['\x7b', '\x7d'] : List Char))).head? ≠ some '-' := by
  cases b with
  | zero =>
    cases c with
    | zero => simp [spacesN, newlsN]
    | succ c' => simp [spacesN, newlsN, List.replicate_succ]
  | succ b' => simp [spacesN, newlsN, List.replicate_succ]

theorem spLazy_of_g6 (g1 : List Char) (g2 g3 : Option (List Char)) (g4 g5 : List Char)
    {l : List Char} {r : RawCaps} (h : group6 g1 g2 g3 g4 g5 l = some r) :
    spLazy g1 g2 g3 g4 g5 l = some r := by
  cases l with
  | nil => exact h
  | cons c t =>
    unfold spLazy
    rw [h]

theorem g5go_stop (g1 : List Char) (g2 g3 : Option (List Char)) (g4 : List Char)
    {acc l : List Char} {r : RawCaps}
    (h : spacePlus g1 g2 g3 g4 ('(' :: acc) l = some r) :
    g5go g1 g2 g3 g4 acc l = some r := by
  cases l with
  | nil => exact h
  | cons c t =>
    unfold g5go
    rw [h]

theorem g4go_stop (g1 : List Char) (g2 g3 : Option (List Char))
    {acc l : List Char} {r : RawCaps} (h : group5 g1 g2 g3 acc l = some r) :
    g4go g1 g2 g3 acc l = some r := by
  cases l with
  | nil => exact h
  | cons c t =>
    unfold g4go
    rw [h]

theorem g1go_stop {acc l : List Char} {r : RawCaps} (h : postG1 acc l = some r) :
    g1go acc l = some r := by
  cases l with
  | nil => exact h
  | cons c t =>
    unfold g1go
    rw [h]

theorem fnSpaces_prepend (g1 : List Char) (g2 g3 : Option (List Char))
    {c : Char} {t : List Char} {r : RawCaps} (hc : ¬ c = ' ')
    (h : g4go g1 g2 g3 [] (c :: t) = some r) :
    ∀ a, fnSpaces g1 g2 g3 (spacesN a ++ (c :: t)) = some r := by
  intro a
  induction a with
  | zero =>
    rw [show spacesN 0 = [] from rfl, List.nil_append]
    unfold fnSpaces
    rw [if_neg hc]
    exact h
  | succ a' ih =>
    rw [show spacesN (a' + 1) = ' ' :: spacesN a' from rfl, List.cons_append]
    have he : fnSpaces g1 g2 g3 (' ' :: (spacesN a' ++ (c :: t))) =
        (match fnSpaces g1 g2 g3 (spacesN a' ++ (c :: t)) with
          | some r => some r
          | none => g4go g1 g2 g3 [] (' ' :: (spacesN a' ++ (c :: t)))) := rfl
    rw [he, ih]

theorem fnCaptures_elastic (a b c : Nat) :
    fnCaptures (elasticInput a b c) =
      some ⟨[], none, none, ['f'], ['(', ')'], none, [], []⟩ := by
  have h1 : wsOpen [] none none ['f'] ['(', ')'] none ['\x7b', '\x7d'] =
      some ⟨[], none, none, ['f'], ['(', ')'], none, [], []⟩ := rfl
  have h2 := wsOpen_prepend [] none none ['f'] ['(', ')'] none b c _ _ h1
  have h3 := group6_head_not_dash [] none none ['f'] ['(', ')'] (elastic_tail_head b c) h2
  have h4 := spLazy_of_g6 [] none none ['f'] ['(', ')'] h3
  have h5 : spacePlus [] none none ['f'] ('(' :: [')'])
      (' ' :: (spacesN b ++ (newlsN c ++ ['\x7b', '\x7d']))) =
      some ⟨[], none, none, ['f'], ['(', ')'], none, [], []⟩ := h4
  have h6 := g5go_stop [] none none ['f'] h5
  have h7 : g5go [] none none ['f'] []
      (')' :: (' ' :: (spacesN b ++ (newlsN c ++ ['\x7b', '\x7d'])))) =
      some ⟨[], none, none, ['f'], ['(', ')'], none, [], []⟩ := h6
  have h8 : group5 [] none none ['f']
      ('(' :: ')' :: (' ' :: (spacesN b ++ (newlsN c ++ ['\x7b', '\x7d'])))) =
      some ⟨[], none, none, ['f'], ['(', ')'], none, [], []⟩ := h7
  have h9 := g4go_stop [] none none h8
  have h10 : g4go [] none none []
      ('f' :: '(' :: ')' :: (' ' :: (spacesN b ++ (newlsN c ++ ['\x7b', '\x7d'])))) =
      some ⟨[], none, none, ['f'], ['(', ')'], none, [], []⟩ := h9
  have h11 := fnSpaces_prepend [] none none (by decide) h10 a
  have h12 : postG1 [] (elasticInput a b c) =
      some ⟨[], none, none, ['f'], ['(', ')'], none, [], []⟩ := h11
  exact g1go_stop h12

/-! ### Dissecting a successful `from_string` -/

theorem strData_mk (l : List Char) : (String.mk l).data = l := rfl

theorem strMk_ne_empty (c : Char) (t : List Char) : String.mk (c :: t) ≠ "" := by
  intro h
  simpa using congrArg String.data h

theorem strAppend_data (a b : String) : (a ++ b).data = a.data ++ b.data := by
  cases a
  cases b
  rfl

theorem strAppend_assoc (a b c : String) : a ++ b ++ c = a ++ (b ++ c) := by
  cases a with
  | mk x =>
    cases b with
    | mk y =>
      cases c with
      | mk z =>
        show String.mk (x ++ y ++ z) = String.mk (x ++ (y ++ z))
        rw [List.append_assoc]

theorem from_string_fields (s : String) (d : FunctionDecl) (h : from_string s = some d) :
    ∃ caps ret, fnCaptures s.data = some caps ∧ retDecl caps.g6 = some ret ∧
      d = mkDecl caps ret := by
  unfold from_string at h
  cases hc : fnCaptures s.data with
  | none => rw [hc] at h; exact absurd h (by simp)
  | some caps =>
    rw [hc] at h
    have h : (match retDecl caps.g6 with
      | none => none
      | some ret => some (mkDecl caps ret)) = some d := h
    cases hr : retDecl caps.g6 with
    | none => rw [hr] at h; exact absurd h (by simp)
    | some ret =>
      rw [hr] at h
      have hd : mkDecl caps ret = d := by simpa using h
      exact ⟨caps, ret, rfl, hr, hd.symm⟩

theorem from_string_decl_paren (s : String) (d : FunctionDecl)
    (h : from_string s = some d) : ∃ t, d.fn_decl.data = '(' :: t := by
  obtain ⟨caps, ret, hcap, _, hd⟩ := from_string_fields s d h
  obtain ⟨⟨i, h5⟩, _⟩ := fnCaptures_sound s.data caps hcap
  have hdecl : d.fn_decl.data = trimChars caps.g5 := by rw [hd]; rfl
  rw [h5] at hdecl
  have hop : rustIsWs '(' = false := by decide
  rw [show trimChars ('(' :: i) = trimWith rustIsWs ('(' :: i) from rfl,
    trimWith_cons rustIsWs '(' i hop] at hdecl
  exact ⟨trimEndWith rustIsWs i, hdecl⟩

theorem from_string_mem_brace (s : String) (d : FunctionDecl)
    (h : from_string s = some d) : '\x7d' ∈ s.data := by
  obtain ⟨caps, ret, hcap, _, _⟩ := from_string_fields s d h
  obtain ⟨_, pre, hsplit, _⟩ := fnCaptures_sound s.data caps hcap
  rw [hsplit]
  simp

/-! ### The claims -/

/-- C1, counterexample: the claim fails already on the well-formed declaration
`fn f() \x7b\x7d` — `signatureLine()` returns `fn f() \x7b`, which contains no
closing brace, and the pattern unconditionally demands one, so re-parsing the
signature line panics instead of succeeding. -/
theorem c1_counterexample :
    from_string "fn f() \x7b\x7d" = some ⟨"", "", "", "f", "()", "", ""⟩ ∧
      from_string (func_prelude ⟨"", "", "", "f", "()", "", ""⟩) = none := by
  exact ⟨rfl, rfl⟩

/-- C1 (amended): `signatureLine()` is never re-parseable by the matcher — it
lacks the closing brace the pattern requires — whenever its fields smuggle in
no closing brace of their own; the round-trip instead holds through
`rebuildWithBody`: for the spec's concrete scenario, re-parsing
`rebuildWithBody(body)` reproduces the identical seven fields. -/
theorem c1_signature_roundtrip :
    (∀ d : FunctionDecl, '\x7d' ∉ (func_prelude d).data →
      from_string (func_prelude d) = none) ∧
    from_string "#[attr]\npub fn g() -> R \x7b\n  r\n\x7d" =
      some ⟨"#[attr]\n", "pub", "", "g", "()", "R", "r"⟩ ∧
    from_string (into_func_body ⟨"#[attr]\n", "pub", "", "g", "()", "R", "r"⟩
        (FunctionDecl.fn_body ⟨"#[attr]\n", "pub", "", "g", "()", "R", "r"⟩)) =
      some ⟨"#[attr]\n", "pub", "", "g", "()", "R", "r"⟩ := by
  refine ⟨?_, rfl, rfl⟩
  intro d hd
  cases hfs : from_string (func_prelude d) with
  | none => rfl
  | some d' => exact absurd (from_string_mem_brace _ _ hfs) hd

/-- C1, witness: the no-reparse part applied to a concrete instance. -/
theorem c1_witness :
    from_string (func_prelude ⟨"#[doc]\n", "", "", "h", "(x: T)", "U", "b"⟩) = none :=
  c1_signature_roundtrip.1 ⟨"#[doc]\n", "", "", "h", "(x: T)", "U", "b"⟩ (by decide)

/-- C2, counterexample: `fn () \x7b\x7d` is accepted by the matcher (the name
group `([\w\W]*?)` matches the empty string), so construction succeeds with an
empty `name` field, refuting the claim that `name` is never empty. -/
theorem c2_counterexample :
    ∃ d, from_string "fn () \x7b\x7d" = some d ∧ d.fn_name = "" := by
  exact ⟨⟨"", "", "", "", "()", "", ""⟩, rfl, rfl⟩

/-- C2 (amended): for every input on which construction succeeds, the
`parameters` field is non-empty (its capture starts at a literal `(`); the
`name` field, however, can be empty. -/
theorem c2_params_nonempty (s : String) (d : FunctionDecl)
    (h : from_string s = some d) : d.fn_decl ≠ "" := by
  obtain ⟨t, hd⟩ := from_string_decl_paren s d h
  intro he
  rw [he] at hd
  simp at hd

/-- C2, witness. -/
theorem c2_witness : (⟨"", "", "", "f", "()", "", ""⟩ : FunctionDecl).fn_decl ≠ "" :=
  c2_params_nonempty "fn f() \x7b\x7d" ⟨"", "", "", "f", "()", "", ""⟩ rfl

/-- C3, counterexample: `fn f() \x7b\x7d` and `fn f()\n\x7b\x7d` differ only in
the kind of whitespace separating the parameter list from the opening brace
(one space vs. one newline), yet the first is accepted and the second panics:
the ` +?` after the parameter group demands at least one literal space. -/
theorem c3_counterexample :
    from_string "fn f() \x7b\x7d" = some ⟨"", "", "", "f", "()", "", ""⟩ ∧
      from_string "fn f()\n\x7b\x7d" = none := by
  exact ⟨rfl, rfl⟩

/-- C3 (amended): whitespace between the declaration parts is elastic only
given at least one space immediately after the parameter list; under that
proviso the extracted fields are independent of the amounts: for every number
of extra spaces between keyword and name, extra spaces after the parameter
list, and newlines before the opening brace, construction succeeds with the
identical seven fields. -/
theorem c3_whitespace_elastic (a b c : Nat) :
    from_string (String.mk (elasticInput a b c)) =
      some ⟨"", "", "", "f", "()", "", ""⟩ := by
  have hc : fnCaptures (String.mk (elasticInput a b c)).data =
      some ⟨[], none, none, ['f'], ['(', ')'], none, [], []⟩ :=
    fnCaptures_elastic a b c
  unfold from_string
  rw [hc]
  rfl

/-- C4: `rebuildWithBody(newBody)` is exactly
`signatureLine() ++ "\n" ++ newBody ++ "\n" ++ closingLine()`, and on the
spec's concrete scenario it produces the advertised literal output. -/
theorem c4_rebuild_with_body :
    (∀ (d : FunctionDecl) (b : String),
      into_func_body d b = func_prelude d ++ "\n" ++ b ++ "\n" ++ func_end d) ∧
    from_string "#[attr]\npub fn g() -> R \x7b\n  r\n\x7d" =
      some ⟨"#[attr]\n", "pub", "", "g", "()", "R", "r"⟩ ∧
    into_func_body ⟨"#[attr]\n", "pub", "", "g", "()", "R", "r"⟩ "s" =
      "#[attr]\npub fn g() -> R \x7b\ns\n\x7d" := by
  exact ⟨fun d b => rfl, rfl, rfl⟩

/-- C5: the signature line is the prologue, then visibility plus one space
only when visibility is non-empty, then asynchrony plus one space only when
asynchrony is non-empty, then `fn `, the name, the parameter list, then
` -> ` and the return type only when the return type is non-empty, and
finally ` \x7b`; absent optional fields contribute no characters at all. -/
theorem c5_signature_format (d : FunctionDecl) :
    func_prelude d =
      d.func_prologue ++
        ((if d.pub_str = "" then "" else d.pub_str ++ " ") ++
          ((if d.async_str = "" then "" else d.async_str ++ " ") ++
            ("fn " ++ (d.fn_name ++ (d.fn_decl ++
              ((if d.ret_decl = "" then "" else " -> " ++ d.ret_decl) ++ " \x7b")))))) := by
  simp only [func_prelude, add_space_or_empty, strAppend_assoc]

/-- C7: decomposition is all-or-nothing: if the pattern does not match the
input, construction panics (returns no value), and a normal return is only
possible when the pattern matched and produced its capture set. -/
theorem c7_all_or_nothing :
    (∀ s : String, fnCaptures s.data = none → from_string s = none) ∧
    (∀ (s : String) (d : FunctionDecl), from_string s = some d →
      ∃ caps, fnCaptures s.data = some caps) := by
  constructor
  · intro s h
    unfold from_string
    rw [h]
  · intro s d h
    obtain ⟨caps, _, hc, _⟩ := from_string_fields s d h
    exact ⟨caps, hc⟩

/-- C7, witness: a non-matching input panics; a matching one returns captures. -/
theorem c7_witness :
    from_string "no declaration here" = none ∧
      ∃ caps, fnCaptures (String.data "fn f() \x7b\x7d") = some caps :=
  ⟨c7_all_or_nothing.1 "no declaration here" rfl,
    c7_all_or_nothing.2 "fn f() \x7b\x7d" ⟨"", "", "", "f", "()", "", ""⟩ rfl⟩

/-- C8, counterexample: for `#[a]\n\nfn f() \x7b\x7d` the captured prologue is
`#[a]\n\n` — the construction trims only spaces (`trim_matches(' ')`), so the
non-empty prologue ends in two newlines, not in a single trailing newline as
the claim requires. -/
theorem c8_counterexample :
    ∃ d, from_string "#[a]\n\nfn f() \x7b\x7d" = some d ∧
      d.func_prologue.data.reverse.take 2 = ['\n', '\n'] := by
  exact ⟨⟨"#[a]\n\n", "", "", "f", "()", "", ""⟩, rfl, rfl⟩

/-- C8 (amended): the prologue is trimmed of leading and trailing spaces only:
on every successful construction its first and last characters are not the
space character; newlines, leading or trailing, are preserved as captured. -/
theorem c8_prologue_trim (s : String) (d : FunctionDecl)
    (h : from_string s = some d) :
    d.func_prologue.data.head? ≠ some ' ' ∧
      d.func_prologue.data.reverse.head? ≠ some ' ' := by
  obtain ⟨caps, ret, _, _, hd⟩ := from_string_fields s d h
  have hdata : d.func_prologue.data = trimWith (fun c => c == ' ') caps.g1 := by
    rw [hd]; rfl
  constructor
  · intro hh
    rw [hdata] at hh
    have := trimWith_head _ _ _ hh
    simp at this
  · intro hh
    rw [hdata] at hh
    have := trimWith_reverse_head _ _ _ hh
    simp at this

/-- C8, witness. -/
theorem c8_witness :
    (⟨"#[a]\n", "", "", "f", "()", "", ""⟩ : FunctionDecl).func_prologue.data.head? ≠
        some ' ' ∧
      (⟨"#[a]\n", "", "", "f", "()", "", ""⟩ :
          FunctionDecl).func_prologue.data.reverse.head? ≠ some ' ' :=
  c8_prologue_trim "#[a]\nfn f() \x7b\x7d" ⟨"#[a]\n", "", "", "f", "()", "", ""⟩ rfl

/-- C6, counterexample: for `#[a\x7bb\x7d]\nfn f() \x7bc\x7d` — a declaration
whose prologue contains braces — the body field is `c`, not the trimmed text
between the *first* opening brace of the input and the last closing brace. -/
theorem c6_counterexample :
    ∃ d, from_string "#[a\x7bb\x7d]\nfn f() \x7bc\x7d" = some d ∧
      d.fn_body ≠
        String.mk (trimChars (betweenBraces
          (String.data "#[a\x7bb\x7d]\nfn f() \x7bc\x7d"))) := by
  refine ⟨⟨"#[a\x7bb\x7d]\n", "", "", "f", "()", "", "c"⟩, rfl, ?_⟩
  decide

/-- C6 (amended): on every successful construction the input splits as
`pre ++ "\x7b" ++ mid ++ "\x7d" ++ post` where the closing brace is the last
one of the input (`post` contains none) and `body` is `mid` trimmed; the
opening brace is the one the matcher anchored on — not necessarily the first
brace of the input.  A declaration with an empty body yields `body = ""`. -/
theorem c6_body_extraction :
    (∀ (s : String) (d : FunctionDecl), from_string s = some d →
      ∃ pre mid post, s.data = pre ++ '\x7b' :: (mid ++ '\x7d' :: post) ∧
        '\x7d' ∉ post ∧ d.fn_body = String.mk (trimChars mid)) ∧
    ∃ d, from_string "fn f() \x7b\x7d" = some d ∧ d.fn_body = "" := by
  constructor
  · intro s d h
    obtain ⟨caps, ret, hcap, _, hd⟩ := from_string_fields s d h
    obtain ⟨_, pre, hsplit, hpost⟩ := fnCaptures_sound s.data caps hcap
    exact ⟨pre, caps.g7, caps.post, hsplit, hpost, by rw [hd]; rfl⟩
  · exact ⟨⟨"", "", "", "f", "()", "", ""⟩, rfl, rfl⟩

/-- C6, witness: the decomposition at a concrete input. -/
theorem c6_witness :
    ∃ pre mid post,
      (String.data "fn f() \x7b\x7d") = pre ++ '\x7b' :: (mid ++ '\x7d' :: post) ∧
        '\x7d' ∉ post ∧
        (⟨"", "", "", "f", "()", "", ""⟩ : FunctionDecl).fn_body =
          String.mk (trimChars mid) :=
  c6_body_extraction.1 "fn f() \x7b\x7d" ⟨"", "", "", "f", "()", "", ""⟩ rfl

/-- C9, counterexample: for `fn f(a \x7b\x7d) \x7b\x7d` the parameter capture
stops at the first space that lets the rest of the pattern match, yielding
`(a` — not the parenthesized list `(a \x7b\x7d)` as written, and without its
closing parenthesis. -/
theorem c9_counterexample :
    ∃ d, from_string "fn f(a \x7b\x7d) \x7b\x7d" = some d ∧
      d.fn_decl = "(a" ∧ d.fn_decl ≠ "(a \x7b\x7d)" := by
  refine ⟨⟨"", "", "", "f", "(a", "", "\x7d) \x7b"⟩, rfl, rfl, ?_⟩
  decide

/-- C9 (amended): the parameters field always begins with the opening
parenthesis exactly as written; the closing parenthesis is not guaranteed. -/
theorem c9_params_paren (s : String) (d : FunctionDecl)
    (h : from_string s = some d) : d.fn_decl.data.head? = some '(' := by
  obtain ⟨t, hd⟩ := from_string_decl_paren s d h
  rw [hd]
  rfl

/-- C9, witness. -/
theorem c9_witness :
    (⟨"", "", "", "f", "()", "", ""⟩ : FunctionDecl).fn_decl.data.head? = some '(' :=
  c9_params_paren "fn f() \x7b\x7d" ⟨"", "", "", "f", "()", "", ""⟩ rfl

/-- C10: `fn f() -> \x7b\x7d` is accepted by the matcher with the return
clause captured as the bare two-character arrow `->`, and construction then
panics in the `unwrap` of the clause's missing third character instead of
returning an instance with an empty return type. -/
theorem c10_arrow_unwrap_panics :
    fnCaptures (String.data "fn f() -> \x7b\x7d") =
      some ⟨[], none, none, ['f'], ['(', ')'], some ['-', '>'], [], []⟩ ∧
    from_string "fn f() -> \x7b\x7d" = none := by
  exact ⟨rfl, rfl⟩
